import Mathlib

/-!
Verification development for the flatten-repo extension (`src/extension.js`).

The file shallowly embeds the core engine of the extension: the glob matcher
(`toRegex` / `regexTest`), the `.flatten_ignore` parser (`parseFlattenIgnore`),
the two file collectors appearing in `activate` (`collect1` for the scored
command, `collect2` for the sequential command), the chunk-size estimator
(`estimateOutputFiles`), the single-chunk packer (`createChunksEfficiently`)
and the sequential packing loop (`packLoop`).  Strings are Lean `String`s;
`String.length` coincides with JavaScript's `.length` on the ASCII inputs
exercised here.  Filesystem effects are replaced by explicit inputs: file
contents are passed in, directory stat queries become an `isDir` oracle, and
`console.warn` skip logging becomes an explicit output list.
-/

namespace FlattenRepo

/-! ### Glob matcher (`toRegex`, extension.js lines 17–24)

`toRegex` in the source escapes regex metacharacters (which keeps them as
literal characters), then replaces `**` with `.*`, `*` with `[^/]*` and `?`
with `.`, anchored with `^...$`.  We embed the produced regular expression as
a list of atoms and give its backtracking semantics directly: `lit c` is a
literal character, `star` is `[^/]*` (any character but `/`, line
terminators included — a negated class is not restricted by the missing `s`
flag), `dstar` is `.*` and `qmark` is `.`, where JavaScript `.` without the
`s` flag matches any single character *except* the line terminators
`\n`, `\r`, U+2028 and U+2029 — in particular it does match `/`.
Characters are modelled as Unicode code points; this agrees with the
source's UTF-16 code-unit regexes on all Basic Multilingual Plane inputs
(every path and pattern exercised here). -/

inductive GElem where
  | lit (c : Char)
  | star
  | dstar
  | qmark
deriving DecidableEq, Repr

/-- Compilation of the glob string, scanning left to right exactly as the
source's chain of `String.replace` calls does (`**` before `*`). -/
def compileGlobAux : List Char → List GElem
  | [] => []
  | '*' :: '*' :: rest => .dstar :: compileGlobAux rest
  | '*' :: rest => .star :: compileGlobAux rest
  | '?' :: rest => .qmark :: compileGlobAux rest
  | c :: rest => .lit c :: compileGlobAux rest

/-- `toRegex` from extension.js: a glob becomes an anchored atom list. -/
def toRegex (glob : String) : List GElem :=
  compileGlobAux glob.data

/-- The line terminators of the ECMAScript lexical grammar: `.` (and hence
`qmark` and `dstar`, but not the negated class `star`) never matches one of
these when the `s` flag is absent, as in `toRegex`. -/
def isLineTerminator (c : Char) : Bool :=
  c == '\n' || c == '\r' || c == '\u2028' || c == '\u2029'

/-- Backtracking matcher for the anchored regular expression produced by
`toRegex`, with an explicit fuel argument making the recursion structural
(hence executable by the kernel).  Every recursive call strictly decreases
`gs.length + ds.length`, so fuel `gs.length + ds.length + 1` always
suffices; `regexTest` below supplies it.  `qmark` (`.`) and `dstar` (`.*`)
consume only non-line-terminator characters; `star` (`[^/]*`) consumes any
character but `/`. -/
def regexTestFuel : Nat → List GElem → List Char → Bool
  | 0, _, _ => false
  | _ + 1, [], [] => true
  | _ + 1, [], _ :: _ => false
  | _ + 1, .lit _ :: _, [] => false
  | fuel + 1, .lit c :: gs, d :: ds => c == d && regexTestFuel fuel gs ds
  | _ + 1, .qmark :: _, [] => false
  | fuel + 1, .qmark :: gs, d :: ds => !isLineTerminator d && regexTestFuel fuel gs ds
  | fuel + 1, .star :: gs, [] => regexTestFuel fuel gs []
  | fuel + 1, .star :: gs, d :: ds =>
      regexTestFuel fuel gs (d :: ds) || (d != '/' && regexTestFuel fuel (.star :: gs) ds)
  | fuel + 1, .dstar :: gs, [] => regexTestFuel fuel gs []
  | fuel + 1, .dstar :: gs, d :: ds =>
      regexTestFuel fuel gs (d :: ds) ||
        (!isLineTerminator d && regexTestFuel fuel (.dstar :: gs) ds)

/-- Semantics of the anchored regular expression produced by `toRegex`:
`regexTest gs ds` holds iff the atom list `gs` matches the whole character
list `ds` (JavaScript `RegExp.test` with the `^...$` anchors). -/
def regexTest (gs : List GElem) (ds : List Char) : Bool :=
  regexTestFuel (gs.length + ds.length + 1) gs ds

/-- `r.test(p)` on a compiled pattern. -/
def test (r : List GElem) (p : String) : Bool :=
  regexTest r p.data

/-- `matchesAny` from extension.js lines 128–130. -/
def matchesAny (p : String) (regexes : List (List GElem)) : Bool :=
  regexes.any fun r => test r p

/-- `patternsToRegex` from extension.js lines 638–640. -/
def patternsToRegex (patterns : List String) : List (List GElem) :=
  patterns.map toRegex

/-! ### Rule set parser (`parseFlattenIgnore`, extension.js lines 55–120)

The source reads the `.flatten_ignore` document; a missing or unreadable file
is modelled by passing `none` for the content.  The `fs.stat` query used by
`processPattern` is abstracted into an `isDir` oracle (`isDir p` holds iff
`path.join(rootPath, p)` stats successfully as a directory). -/

/-- Model of JavaScript `String.prototype.trim` (drops leading and trailing
whitespace), executable on the character list. -/
def jsTrim (s : String) : String :=
  ⟨((s.data.dropWhile Char.isWhitespace).reverse.dropWhile Char.isWhitespace).reverse⟩

/-- Model of JavaScript `String.prototype.toLowerCase` on the ASCII
fragment the section keywords live in. -/
def jsToLower (s : String) : String :=
  ⟨s.data.map Char.toLower⟩

/-- Model of JavaScript `String.prototype.startsWith`. -/
def jsStartsWith (s pre : String) : Bool :=
  pre.data.isPrefixOf s.data

/-- Model of JavaScript `String.prototype.endsWith`. -/
def jsEndsWith (s suf : String) : Bool :=
  suf.data.isSuffixOf s.data

/-- Splitting on a one-character separator, as JavaScript
`String.prototype.split` does for the separators `'\n'` and `':'` used by
the parser: `splitCharAux sep cs acc` accumulates the current field in
reverse. -/
def splitCharAux (sep : Char) : List Char → List Char → List String
  | [], acc => [⟨acc.reverse⟩]
  | c :: cs, acc =>
      if c = sep then ⟨acc.reverse⟩ :: splitCharAux sep cs []
      else splitCharAux sep cs (c :: acc)

/-- Model of JavaScript `s.split(sep)` for a one-character separator. -/
def jsSplitChar (sep : Char) (s : String) : List String :=
  splitCharAux sep s.data []

/-- A non-NaN JavaScript number as produced by `Number(string)`.  The finite
case carries the exact rational value denoted by the numeric literal;
JavaScript stores the nearest IEEE-754 double, which coincides with that
rational on every value this parser feeds downstream (integers of magnitude
below 2^53) — the rounding of non-representable literals such as `0.1` is
the only abstraction. -/
inductive JsNum where
  | finite (q : Rat)
  | posInf
  | negInf
deriving DecidableEq, Repr

/-- A parsed settings value: `Number(value)` when numeric, else the string. -/
inductive SettingVal where
  | num (v : JsNum)
  | str (s : String)
deriving DecidableEq, Repr

/-- Digit-string value in a given base with a given digit valuation. -/
def digitsToNat (base : Nat) (digVal : Char → Nat) (ds : List Char) : Nat :=
  ds.foldl (fun acc c => acc * base + digVal c) 0

/-- Value of a decimal digit. -/
def decDigitVal (c : Char) : Nat := c.toNat - '0'.toNat

/-- ECMAScript `HexDigit`. -/
def isHexDigit (c : Char) : Bool :=
  c.isDigit || ('a' ≤ c && c ≤ 'f') || ('A' ≤ c && c ≤ 'F')

/-- Value of a hexadecimal digit. -/
def hexDigitVal (c : Char) : Nat :=
  if c.isDigit then c.toNat - '0'.toNat
  else if 'a' ≤ c ∧ c ≤ 'f' then c.toNat - 'a'.toNat + 10
  else c.toNat - 'A'.toNat + 10

/-- ECMAScript `OctalDigit`. -/
def isOctDigit (c : Char) : Bool := '0' ≤ c && c ≤ '7'

/-- ECMAScript `BinaryDigit`. -/
def isBinDigit (c : Char) : Bool := c == '0' || c == '1'

/-- The unsigned decimal part of the ECMAScript `StrDecimalLiteral` grammar:
`DecimalDigits . DecimalDigits? ExponentPart?` or `. DecimalDigits
ExponentPart?` or `DecimalDigits ExponentPart?` — at least one digit on one
side of the dot, optional `e`/`E` exponent with optional sign and mandatory
digits, and nothing left over.  Returns the exact rational value. -/
def parseDecimal (cs : List Char) : Option Rat :=
  let intDigits := cs.takeWhile Char.isDigit
  let rest1 := cs.dropWhile Char.isDigit
  let fracPair : List Char × List Char :=
    match rest1 with
    | '.' :: r => (r.takeWhile Char.isDigit, r.dropWhile Char.isDigit)
    | _ => ([], rest1)
  let fracDigits := fracPair.1
  let rest2 := fracPair.2
  if intDigits = [] ∧ fracDigits = [] then none
  else
    let f := fracDigits.length
    let mant : Rat :=
      ((digitsToNat 10 decDigitVal intDigits * 10 ^ f
          + digitsToNat 10 decDigitVal fracDigits : Nat) : Rat)
        / ((10 ^ f : Nat) : Rat)
    match rest2 with
    | [] => some mant
    | e :: r3 =>
        if e = 'e' ∨ e = 'E' then
          let signPair : Bool × List Char :=
            match r3 with
            | '+' :: r => (false, r)
            | '-' :: r => (true, r)
            | r => (false, r)
          let eDigits := signPair.2.takeWhile Char.isDigit
          let rest3 := signPair.2.dropWhile Char.isDigit
          if eDigits ≠ [] ∧ rest3 = [] then
            let ev := digitsToNat 10 decDigitVal eDigits
            some (if signPair.1 then mant / ((10 ^ ev : Nat) : Rat)
                  else mant * ((10 ^ ev : Nat) : Rat))
          else none
        else none

/-- The signed decimal alternative of `StrNumericLiteral`: optional sign,
then `Infinity` or a decimal literal. -/
def jsDecimalForm (cs : List Char) : Option JsNum :=
  let signPair : Bool × List Char :=
    match cs with
    | '+' :: r => (false, r)
    | '-' :: r => (true, r)
    | r => (false, r)
  if signPair.2 = "Infinity".data then
    some (if signPair.1 then .negInf else .posInf)
  else
    match parseDecimal signPair.2 with
    | some q => some (.finite (if signPair.1 then -q else q))
    | none => none

/-- Models the JavaScript `Number(value)` coercion (with the `isNaN` guard of
extension.js line 88) on already-trimmed input, following the ECMAScript
`StringNumericLiteral` grammar: the empty string is 0; an unsigned binary
(`0b`/`0B`), octal (`0o`/`0O`) or hexadecimal (`0x`/`0X`) integer literal;
or a signed decimal literal with optional fraction and exponent, or signed
`Infinity`.  `none` means `Number(value)` is NaN, in which case the parser
keeps the string. -/
def jsNumber (value : String) : Option JsNum :=
  match value.data with
  | [] => some (.finite 0)
  | '0' :: c :: rest =>
      if c = 'x' ∨ c = 'X' then
        if rest ≠ [] ∧ rest.all isHexDigit then
          some (.finite ((digitsToNat 16 hexDigitVal rest : Nat) : Rat))
        else none
      else if c = 'o' ∨ c = 'O' then
        if rest ≠ [] ∧ rest.all isOctDigit then
          some (.finite ((digitsToNat 8 decDigitVal rest : Nat) : Rat))
        else none
      else if c = 'b' ∨ c = 'B' then
        if rest ≠ [] ∧ rest.all isBinDigit then
          some (.finite ((digitsToNat 2 decDigitVal rest : Nat) : Rat))
        else none
      else jsDecimalForm value.data
  | _ => jsDecimalForm value.data

/-- The stored settings value of extension.js lines 87–88:
`settingsObj[key] = isNaN(num) ? value : num`. -/
def settingValOf (value : String) : SettingVal :=
  match jsNumber value with
  | some n => .num n
  | none => .str value

/-- The four sections of a `.flatten_ignore` document. -/
inductive Sect where
  | global
  | whitelist
  | blacklist
  | settings
deriving DecidableEq, Repr

/-- The loop state of `parseFlattenIgnore` (extension.js lines 63–67):
the active section (`section` in the source, a Lean keyword, hence `sect`)
and the four accumulators.  `settingsObj` keeps assignments in write order. -/
structure ParseState where
  sect : Option Sect
  globalArr : List String
  whitelistArr : List String
  blacklistArr : List String
  settingsObj : List (String × SettingVal)
deriving DecidableEq, Repr

/-- One iteration of the line loop of `parseFlattenIgnore`
(extension.js lines 68–91).  `line` is already trimmed. -/
def parseLine (st : ParseState) (line : String) : ParseState :=
  if jsStartsWith line "#" || line == "" then st
  else if jsStartsWith (jsToLower line) "global:" then { st with sect := some .global }
  else if jsStartsWith (jsToLower line) "whitelist:" then { st with sect := some .whitelist }
  else if jsStartsWith (jsToLower line) "blacklist:" then { st with sect := some .blacklist }
  else if jsStartsWith (jsToLower line) "settings:" then { st with sect := some .settings }
  else
    match st.sect with
    | some .global => { st with globalArr := st.globalArr ++ [line] }
    | some .whitelist => { st with whitelistArr := st.whitelistArr ++ [line] }
    | some .blacklist => { st with blacklistArr := st.blacklistArr ++ [line] }
    | some .settings =>
        let parts := jsSplitChar ':' line
        if parts.length ≥ 2 then
          let key := jsTrim (parts.headD "")
          let value := jsTrim (String.intercalate ":" parts.tail)
          { st with settingsObj := st.settingsObj ++ [(key, settingValOf value)] }
        else st
    | none => st

/-- `processPattern` from extension.js lines 93–106: a pattern with no `*`
and no `?` naming an existing directory (per the `isDir` oracle) and not
already ending in `/**` is rewritten to `pattern/**`. -/
def processPattern (isDir : String → Bool) (pattern : String) : String :=
  if !pattern.data.contains '*' && !pattern.data.contains '?' then
    if isDir pattern && !jsEndsWith pattern "/**" then pattern ++ "/**" else pattern
  else pattern

/-- The result type of `parseFlattenIgnore`. -/
structure RuleSet where
  global : List String
  whitelist : List String
  blacklist : List String
  settings : List (String × SettingVal)
deriving DecidableEq, Repr

/-- `parseFlattenIgnore` from extension.js lines 55–120.  `content` is the
document text, `none` when `fs.readFile` fails (missing/unreadable file), in
which case the catch block returns the all-empty rule set. -/
def parseFlattenIgnore (content : Option String) (isDir : String → Bool) : RuleSet :=
  match content with
  | none => { global := [], whitelist := [], blacklist := [], settings := [] }
  | some text =>
      let lines := (jsSplitChar '\n' text).map jsTrim
      let st := lines.foldl parseLine
        { sect := none, globalArr := [], whitelistArr := [], blacklistArr := [],
          settingsObj := [] }
      { global := st.globalArr.map (processPattern isDir)
        whitelist := st.whitelistArr.map (processPattern isDir)
        blacklist := st.blacklistArr.map (processPattern isDir)
        settings := st.settingsObj }

/-- JavaScript object lookup on the settings accumulator: repeated
assignments to a key overwrite, so the last write wins. -/
def lookupSetting (obj : List (String × SettingVal)) (k : String) : Option SettingVal :=
  ((obj.filter fun e => e.1 == k).getLast?).map Prod.snd

/-- The defaults merge `{ ...defaultSettings, ...ignoreRules.settings }` of
extension.js lines 1598–1602, restricted to `maxTokenLimit`. -/
def effectiveMaxTokenLimit (rs : RuleSet) : SettingVal :=
  (lookupSetting rs.settings "maxTokenLimit").getD (.num (.finite 50000))

/-- The defaults merge for `maxTokensPerFile` (extension.js lines 1598–1602). -/
def effectiveMaxTokensPerFile (rs : RuleSet) : SettingVal :=
  (lookupSetting rs.settings "maxTokensPerFile").getD (.num (.finite 25000))

/-! ### File collectors (`collect`, extension.js lines 1160–1196 and 1616–1638)

The walked filesystem is a tree of named entries; `fs.readdir` order is the
order of the `children` list.  Relative paths are forward-slash joined, as
`path.relative` produces on the modelled platform.  The source pushes the
absolute path `path.join(dir, item.name)`; with a fixed root this is in
bijection with the relative path, which is what we record. -/

/-- A directory entry: a plain file or a directory with its children. -/
inductive FsEntry where
  | file (name : String)
  | dir (name : String) (children : List FsEntry)
deriving Repr

/-- `path.relative(rootPath, path.join(dir, item.name))`: the parent's
relative path extended by the entry name (empty prefix at the root). -/
def joinRel (pfix name : String) : String :=
  if pfix = "" then name else pfix ++ "/" ++ name

/-- `path.extname(name)` (Node.js): the suffix from the last `.`, or `""`
when there is no `.` or the only `.` is the leading character. -/
def lastDot : List Char → Option Nat
  | [] => none
  | c :: cs =>
      match lastDot cs with
      | some i => some (i + 1)
      | none => if c = '.' then some 0 else none

/-- Node's `path.extname` on a basename (no separators). -/
def extname (name : String) : String :=
  match lastDot name.data with
  | none => ""
  | some 0 => ""
  | some i => ⟨name.data.drop i⟩

/-- The `collect` of the scored command (extension.js lines 1160–1196).
Checks, in source order: the root-level `flattened` skip, global patterns,
blacklist, whitelist, and then — for files only — the extension filter.
All four pattern checks also apply to directories, pruning them. -/
def collect1 (gi wl bl : List (List GElem)) (exts : List String) :
    List FsEntry → String → List String
  | [], _ => []
  | .file name :: rest, pfix =>
      let relative := joinRel pfix name
      (if relative == "flattened" then []
       else if matchesAny relative gi then []
       else if matchesAny relative bl then []
       else if wl.length != 0 && !matchesAny relative wl then []
       else if !(exts.contains (extname name)) then []
       else [relative]) ++ collect1 gi wl bl exts rest pfix
  | .dir name children :: rest, pfix =>
      let relative := joinRel pfix name
      (if relative == "flattened" then []
       else if matchesAny relative gi then []
       else if matchesAny relative bl then []
       else if wl.length != 0 && !matchesAny relative wl then []
       else collect1 gi wl bl exts children relative) ++ collect1 gi wl bl exts rest pfix

/-- The `collect` of the sequential command (extension.js lines 1616–1638).
A directory is skipped iff it matches a global-ignore pattern; a file must
pass global, whitelist (when non-empty), blacklist and extension checks. -/
def collect2 (gi wl bl : List (List GElem)) (exts : List String) :
    List FsEntry → String → List String
  | [], _ => []
  | .file name :: rest, pfix =>
      let relative := joinRel pfix name
      (if matchesAny relative gi then []
       else if wl.length != 0 && !matchesAny relative wl then []
       else if matchesAny relative bl then []
       else if !(exts.contains (extname name)) then []
       else [relative]) ++ collect2 gi wl bl exts rest pfix
  | .dir name children :: rest, pfix =>
      let relative := joinRel pfix name
      (if matchesAny relative gi then []
       else collect2 gi wl bl exts children relative) ++ collect2 gi wl bl exts rest pfix

/-! ### Content packers and size estimator -/

/-- A chunk as built by both packers: accumulated content and the manifest
of included relative paths, in append order. -/
structure Chunk where
  content : String
  files : List String
deriving DecidableEq, Repr

/-- The per-file entry text `` `\n\n=== FILE: ${rel} ===\n${content}` ``
(extension.js lines 674 and 1664). -/
def fileEntry (rel content : String) : String :=
  "\n\n=== FILE: " ++ rel ++ " ===\n" ++ content

/-- The sequential packing loop of extension.js lines 1651–1681, as a
recursion on the remaining file list with the current open chunk as state.
Returns the produced chunk list together with the skip log: the relative
paths reported by the `console.warn('⚠️ Skipping ...')` branch (line 1666),
in loop order.  File reads are modelled as succeeding (the contents are
inputs); the oversized-entry skip is the behaviour under verification. -/
def packGo (maxChunkSize maxFileSize : Nat) :
    List (String × String) → Chunk → List Chunk × List String
  | [], currentChunk =>
      (if currentChunk.content = "" then [] else [currentChunk], [])
  | (rel, content) :: rest, currentChunk =>
      let e := fileEntry rel content
      if e.length > maxFileSize then
        let r := packGo maxChunkSize maxFileSize rest currentChunk
        (r.1, rel :: r.2)
      else if currentChunk.content.length + e.length > maxChunkSize then
        let r := packGo maxChunkSize maxFileSize rest { content := e, files := [rel] }
        (currentChunk :: r.1, r.2)
      else
        packGo maxChunkSize maxFileSize rest
          { content := currentChunk.content ++ e, files := currentChunk.files ++ [rel] }

/-- The packing loop started on the empty current chunk
(extension.js line 1652: `let currentChunk = { content: '', files: [] }`). -/
def packLoop (files : List (String × String)) (maxChunkSize maxFileSize : Nat) :
    List Chunk × List String :=
  packGo maxChunkSize maxFileSize files { content := "", files := [] }

/-- The greedy simulation loop of `estimateOutputFiles`
(extension.js lines 258–286) on the size list, carrying
`currentChunkSize`, `numChunks` and `totalSize`.  The `suggestions` string
array the source also returns is operator-facing text and is not modelled. -/
def estimateGo (maxChunkSize : Nat) :
    List Nat → Nat → Nat → Nat → Nat × Nat
  | [], _, numChunks, totalSize => (numChunks, totalSize)
  | size :: rest, currentChunkSize, numChunks, totalSize =>
      if currentChunkSize + size > maxChunkSize then
        estimateGo maxChunkSize rest size (numChunks + 1) (totalSize + size)
      else
        estimateGo maxChunkSize rest (currentChunkSize + size) numChunks (totalSize + size)

/-- `estimateOutputFiles` from extension.js lines 258–286:
`(estimatedFiles, totalSize)`, starting from one chunk and running sum 0. -/
def estimateOutputFiles (files : List Nat) (maxChunkSize : Nat) : Nat × Nat :=
  estimateGo maxChunkSize files 0 1 0

/-- The fixed hard limit of `createChunksEfficiently`
(extension.js line 667: `512 * 1024`). -/
def HARD_LIMIT : Nat := 512 * 1024

/-- The accumulation loop of `createChunksEfficiently`
(extension.js lines 673–684): state is `(totalContent, includedFiles,
skippedFiles)`. -/
def cceGo : List (String × String) → String → List String → List String →
    String × List String × List String
  | [], total, included, skipped => (total, included, skipped)
  | (rel, content) :: rest, total, included, skipped =>
      let e := fileEntry rel content
      if total.length + e.length > HARD_LIMIT then
        cceGo rest total included (skipped ++ [rel])
      else
        cceGo rest (total ++ e) (included ++ [rel]) skipped

/-- The truncation warning prepended when files were skipped
(extension.js line 688). -/
def truncationWarning (skipped : List String) : String :=
  "\n\n=== WARNING: CONTENT TRUNCATED ===\nThe following " ++
    toString skipped.length ++
    " files were skipped to stay within LLM token limits:\n" ++
    String.intercalate "\n" skipped ++ "\n"

/-- `createChunksEfficiently` from extension.js lines 665–696.  The
`maxChunkSize` parameter is accepted (as in the source signature) and the
body only uses `HARD_LIMIT`. -/
def createChunksEfficiently (files : List (String × String)) (maxChunkSize : Nat) :
    List Chunk :=
  let r := cceGo files "" [] []
  let totalContent := if r.2.2.length > 0 then truncationWarning r.2.2 ++ r.1 else r.1
  [{ content := totalContent, files := r.2.1 }]

/-- Reference greedy-inclusion predicate for `createChunksEfficiently`,
phrased over entry lengths only: the relative paths whose entry still fits
the hard limit at the moment they are processed. -/
def greedyIncluded : List (String × String) → Nat → List String
  | [], _ => []
  | (rel, content) :: rest, acc =>
      let n := (fileEntry rel content).length
      if acc + n > HARD_LIMIT then greedyIncluded rest acc
      else rel :: greedyIncluded rest (acc + n)

/-! ### Helper lemmas -/

lemma string_length_eq_zero (s : String) : s.length = 0 ↔ s = "" := by
  cases s with
  | mk data =>
    cases data with
    | nil => simp
    | cons c cs => simp [String.length, String.ext_iff]

lemma fileEntry_length (rel content : String) :
    (fileEntry rel content).length = 17 + rel.length + content.length := by
  have h1 : ("\n\n=== FILE: " : String).length = 12 := rfl
  have h2 : (" ===\n" : String).length = 5 := rfl
  simp only [fileEntry, String.length_append, h1, h2]
  omega

lemma fileEntry_ne_empty (rel content : String) : fileEntry rel content ≠ "" := by
  intro h
  have hl := fileEntry_length rel content
  rw [h] at hl
  have : ("" : String).length = 0 := rfl
  omega

lemma append_fileEntry_ne_empty (s rel content : String) :
    s ++ fileEntry rel content ≠ "" := by
  intro h
  have : (s ++ fileEntry rel content).length = 0 := by rw [h]; rfl
  rw [String.length_append, fileEntry_length] at this
  omega

/-- Manifest/skip-log bookkeeping of the sequential packing loop: starting
from a current chunk whose manifest is empty whenever its content is, the
concatenated manifests of the produced chunks are the current manifest
followed by the kept input files in order, and the skip log is exactly the
oversized input files in order. -/
lemma packGo_manifest (mc mf : Nat) :
    ∀ (files : List (String × String)) (cur : Chunk),
      (cur.content = "" → cur.files = []) →
      ((packGo mc mf files cur).1.map Chunk.files).flatten
          = cur.files ++ (files.filter fun f => (fileEntry f.1 f.2).length ≤ mf).map Prod.fst
      ∧ (packGo mc mf files cur).2
          = (files.filter fun f => mf < (fileEntry f.1 f.2).length).map Prod.fst := by
  intro files
  induction files with
  | nil =>
      intro cur h
      by_cases hc : cur.content = ""
      · simp [packGo, hc, h hc]
      · simp [packGo, hc]
  | cons f rest ih =>
      intro cur h
      obtain ⟨rel, content⟩ := f
      by_cases h1 : (fileEntry rel content).length > mf
      · have := ih cur h
        simp only [packGo, if_pos h1]
        constructor
        · rw [List.filter_cons_of_neg (by simpa using h1)]
          exact this.1
        · rw [List.filter_cons_of_pos (by simpa using h1), this.2]
          simp
      · have hle : (fileEntry rel content).length ≤ mf := by omega
        by_cases h2 : cur.content.length + (fileEntry rel content).length > mc
        · have := ih { content := fileEntry rel content, files := [rel] }
            (by intro hc; exact absurd hc (fileEntry_ne_empty rel content))
          simp only [packGo, if_neg h1, if_pos h2]
          constructor
          · simp only [List.map_cons, List.flatten_cons]
            rw [List.filter_cons_of_pos (by simpa using hle), this.1]
            simp
          · rw [List.filter_cons_of_neg (by simpa using hle)]
            exact this.2
        · have := ih { content := cur.content ++ fileEntry rel content, files := cur.files ++ [rel] }
            (by intro hc; exact absurd hc (append_fileEntry_ne_empty _ rel content))
          simp only [packGo, if_neg h1, if_neg h2]
          constructor
          · rw [List.filter_cons_of_pos (by simpa using hle), this.1]
            simp
          · rw [List.filter_cons_of_neg (by simpa using hle)]
            exact this.2

/-- Size invariant of the sequential packing loop: when the per-file limit is
at most the chunk limit and the current chunk is within the chunk limit,
every produced chunk stays within the chunk limit. -/
lemma packGo_content_le (mc mf : Nat) (hmf : mf ≤ mc) :
    ∀ (files : List (String × String)) (cur : Chunk),
      cur.content.length ≤ mc →
      ∀ ch ∈ (packGo mc mf files cur).1, ch.content.length ≤ mc := by
  intro files
  induction files with
  | nil =>
      intro cur hcur ch hch
      by_cases hc : cur.content = ""
      · simp [packGo, hc] at hch
      · simp [packGo, hc] at hch
        simpa [hch] using hcur
  | cons f rest ih =>
      intro cur hcur ch hch
      obtain ⟨rel, content⟩ := f
      by_cases h1 : (fileEntry rel content).length > mf
      · simp only [packGo, if_pos h1] at hch
        exact ih cur hcur ch hch
      · by_cases h2 : cur.content.length + (fileEntry rel content).length > mc
        · simp only [packGo, if_neg h1, if_pos h2, List.mem_cons] at hch
          rcases hch with rfl | hch
          · exact hcur
          · exact ih { content := fileEntry rel content, files := [rel] } (by simp; omega) ch hch
        · simp only [packGo, if_neg h1, if_neg h2] at hch
          refine ih { content := cur.content ++ fileEntry rel content, files := cur.files ++ [rel] } ?_ ch hch
          simp only [String.length_append]
          omega

/-- Non-emptiness invariant of the sequential packing loop: when the per-file
limit is at most the chunk limit and the current chunk has empty content
exactly when its manifest is empty, every produced chunk has a non-empty
manifest and non-empty content. -/
lemma packGo_nonempty (mc mf : Nat) (hmf : mf ≤ mc) :
    ∀ (files : List (String × String)) (cur : Chunk),
      (cur.content = "" ↔ cur.files = []) →
      ∀ ch ∈ (packGo mc mf files cur).1, ch.files ≠ [] ∧ ch.content ≠ "" := by
  intro files
  induction files with
  | nil =>
      intro cur hcur ch hch
      by_cases hc : cur.content = ""
      · simp [packGo, hc] at hch
      · simp [packGo, hc] at hch
        subst hch
        exact ⟨fun hf => hc (hcur.mpr hf), hc⟩
  | cons f rest ih =>
      intro cur hcur ch hch
      obtain ⟨rel, content⟩ := f
      by_cases h1 : (fileEntry rel content).length > mf
      · simp only [packGo, if_pos h1] at hch
        exact ih cur hcur ch hch
      · by_cases h2 : cur.content.length + (fileEntry rel content).length > mc
        · simp only [packGo, if_neg h1, if_pos h2, List.mem_cons] at hch
          rcases hch with heq | hch
          · have hne : cur.content ≠ "" := by
              intro hc
              rw [hc] at h2
              have : ("" : String).length = 0 := rfl
              omega
            rw [heq]
            exact ⟨fun hf => hne (hcur.mpr hf), hne⟩
          · refine ih { content := fileEntry rel content, files := [rel] } ?_ ch hch
            simp [fileEntry_ne_empty]
        · simp only [packGo, if_neg h1, if_neg h2] at hch
          refine ih { content := cur.content ++ fileEntry rel content, files := cur.files ++ [rel] } ?_ ch hch
          simp [append_fileEntry_ne_empty]

/-- The greedy chunk-count simulation of `estimateOutputFiles` mirrors the
packing loop exactly: run on the entry lengths of the remaining files, from
the current chunk's content length and a chunk counter one ahead of the
chunks already sealed, it returns the final count of chunks, provided no
file is skipped for size and the current chunk is non-empty when no files
remain. -/
lemma estimateGo_packGo (mc mf : Nat) :
    ∀ (files : List (String × String)) (cur : Chunk) (num t : Nat),
      (∀ f ∈ files, (fileEntry f.1 f.2).length ≤ mf) →
      (files = [] → cur.content ≠ "") →
      (estimateGo mc (files.map fun f => (fileEntry f.1 f.2).length)
          cur.content.length (num + 1) t).1
        = (packGo mc mf files cur).1.length + num := by
  intro files
  induction files with
  | nil =>
      intro cur num t _ hne
      have hc : ¬ cur.content = "" := hne rfl
      simp [packGo, estimateGo, hc]
      omega
  | cons f rest ih =>
      intro cur num t hfit hne
      obtain ⟨rel, content⟩ := f
      have h1 : ¬ (fileEntry rel content).length > mf :=
        not_lt.mpr (hfit (rel, content) (List.mem_cons_self _ _))
      by_cases h2 : cur.content.length + (fileEntry rel content).length > mc
      · have key := ih { content := fileEntry rel content, files := [rel] }
          (num + 1) (t + (fileEntry rel content).length)
          (fun f hf => hfit f (List.mem_cons_of_mem _ hf))
          (fun _ => fileEntry_ne_empty rel content)
        rw [show ({ content := fileEntry rel content, files := [rel] } : Chunk).content.length
            = (fileEntry rel content).length from rfl] at key
        simp only [packGo, if_neg h1, if_pos h2, List.map_cons, estimateGo, List.length_cons]
        rw [key]
        omega
      · have key := ih { content := cur.content ++ fileEntry rel content, files := cur.files ++ [rel] }
          num (t + (fileEntry rel content).length)
          (fun f hf => hfit f (List.mem_cons_of_mem _ hf))
          (fun _ => append_fileEntry_ne_empty _ rel content)
        rw [show ({ content := cur.content ++ fileEntry rel content, files := cur.files ++ [rel] } : Chunk).content.length = cur.content.length + (fileEntry rel content).length from String.length_append _ _] at key
        simp only [packGo, if_neg h1, if_neg h2, List.map_cons, estimateGo]
        exact key

/-- The accumulation loop of `createChunksEfficiently` includes exactly the
files of the reference greedy-inclusion predicate, run from the length of the
accumulated content. -/
lemma cceGo_included :
    ∀ (files : List (String × String)) (total : String) (included skipped : List String),
      (cceGo files total included skipped).2.1
        = included ++ greedyIncluded files total.length := by
  intro files
  induction files with
  | nil => intro total included skipped; simp [cceGo, greedyIncluded]
  | cons f rest ih =>
      intro total included skipped
      obtain ⟨rel, content⟩ := f
      by_cases h1 : total.length + (fileEntry rel content).length > HARD_LIMIT
      · simp only [cceGo, if_pos h1, greedyIncluded, ih]
      · simp only [cceGo, if_neg h1, greedyIncluded]
        rw [ih]
        simp [String.length_append]

/-- Every path the scored command's collector produces fails every
global-ignore pattern: the global check precedes all others. -/
theorem collect1_mem_global (gi wl bl : List (List GElem)) (exts : List String) :
    ∀ (entries : List FsEntry) (pfix rel : String),
      rel ∈ collect1 gi wl bl exts entries pfix → matchesAny rel gi = false
  | [], _, _ => by simp [collect1]
  | .file name :: rest, pfix, rel => by
      intro h
      simp only [collect1, List.mem_append] at h
      rcases h with h | h
      · split at h
        · simp at h
        split at h
        · simp at h
        split at h
        · simp at h
        split at h
        · simp at h
        split at h
        · simp at h
        · simp only [List.mem_singleton] at h
          subst h
          simp_all
      · exact collect1_mem_global gi wl bl exts rest pfix rel h
  | .dir name children :: rest, pfix, rel => by
      intro h
      simp only [collect1, List.mem_append] at h
      rcases h with h | h
      · split at h
        · simp at h
        split at h
        · simp at h
        split at h
        · simp at h
        split at h
        · simp at h
        · exact collect1_mem_global gi wl bl exts children (joinRel pfix name) rel h
      · exact collect1_mem_global gi wl bl exts rest pfix rel h

/-- Every path the sequential command's collector produces fails every
global-ignore pattern: the global check precedes all others. -/
theorem collect2_mem_global (gi wl bl : List (List GElem)) (exts : List String) :
    ∀ (entries : List FsEntry) (pfix rel : String),
      rel ∈ collect2 gi wl bl exts entries pfix → matchesAny rel gi = false
  | [], _, _ => by simp [collect2]
  | .file name :: rest, pfix, rel => by
      intro h
      simp only [collect2, List.mem_append] at h
      rcases h with h | h
      · split at h
        · simp at h
        split at h
        · simp at h
        split at h
        · simp at h
        split at h
        · simp at h
        · simp only [List.mem_singleton] at h
          subst h
          simp_all
      · exact collect2_mem_global gi wl bl exts rest pfix rel h
  | .dir name children :: rest, pfix, rel => by
      intro h
      simp only [collect2, List.mem_append] at h
      rcases h with h | h
      · split at h
        · simp at h
        · exact collect2_mem_global gi wl bl exts children (joinRel pfix name) rel h
      · exact collect2_mem_global gi wl bl exts rest pfix rel h

/-- Membership in the file branch of the sequential collector: the file is
kept exactly when it passes the global, whitelist, blacklist and extension
checks of extension.js lines 1631–1635. -/
lemma collect2_file_head (gi wl bl : List (List GElem)) (exts : List String)
    (relative name rel : String) :
    rel ∈ (if matchesAny relative gi then ([] : List String)
       else if wl.length != 0 && !matchesAny relative wl then []
       else if matchesAny relative bl then []
       else if !(exts.contains (extname name)) then []
       else [relative]) ↔
      rel = relative ∧ matchesAny relative gi = false ∧
        (wl = [] ∨ matchesAny relative wl = true) ∧
        matchesAny relative bl = false ∧ exts.contains (extname name) = true := by
  by_cases h1 : matchesAny relative gi
  · simp [h1]
  by_cases h2 : (wl.length != 0 && !matchesAny relative wl) = true
  · simp only [if_neg h1, if_pos h2, List.not_mem_nil, false_iff]
    simp only [Bool.and_eq_true, bne_iff_ne, ne_eq, Bool.not_eq_true'] at h2
    rintro ⟨_, _, hwl, _⟩
    rcases hwl with hwl | hwl
    · exact h2.1 (by simp [hwl])
    · rw [hwl] at h2
      exact absurd h2.2 (by simp)
  by_cases h3 : matchesAny relative bl
  · simp [h1, h2, h3]
  by_cases h4 : (!(exts.contains (extname name))) = true
  · simp only [if_neg h1, if_neg h2, if_neg h3, if_pos h4, List.not_mem_nil, false_iff]
    simp only [Bool.not_eq_true'] at h4
    rintro ⟨_, _, _, _, hc⟩
    rw [hc] at h4
    exact absurd h4 (by simp)
  · simp only [if_neg h1, if_neg h2, if_neg h3, if_neg h4, List.mem_singleton]
    simp only [Bool.not_eq_true'] at h4
    constructor
    · intro hrel
      refine ⟨hrel, by simpa using h1, ?_, by simpa using h3, by simpa using h4⟩
      by_cases hwl : wl = []
      · exact Or.inl hwl
      · refine Or.inr ?_
        by_contra hm
        apply h2
        simp only [Bool.and_eq_true, bne_iff_ne, ne_eq, Bool.not_eq_true']
        exact ⟨fun h => hwl (List.length_eq_zero.mp h), by simpa using hm⟩
    · rintro ⟨hrel, _⟩
      exact hrel

/-- Full membership characterization of the sequential collector: a path is
collected iff it is a file entry passing the four file-level checks, or it
lies inside a child directory that was descended into — and a directory is
descended into exactly when it fails every global-ignore pattern (whitelist
and blacklist never prune a directory here). -/
lemma collect2_mem_iff (gi wl bl : List (List GElem)) (exts : List String) :
    ∀ (entries : List FsEntry) (pfix rel : String),
      rel ∈ collect2 gi wl bl exts entries pfix ↔
        (∃ name, FsEntry.file name ∈ entries ∧ rel = joinRel pfix name ∧
          matchesAny (joinRel pfix name) gi = false ∧
          (wl = [] ∨ matchesAny (joinRel pfix name) wl = true) ∧
          matchesAny (joinRel pfix name) bl = false ∧
          exts.contains (extname name) = true) ∨
        (∃ name children, FsEntry.dir name children ∈ entries ∧
          matchesAny (joinRel pfix name) gi = false ∧
          rel ∈ collect2 gi wl bl exts children (joinRel pfix name)) := by
  intro entries
  induction entries with
  | nil => intro pfix rel; simp [collect2]
  | cons e rest ih =>
      intro pfix rel
      cases e with
      | file name =>
          simp only [collect2, List.mem_append, collect2_file_head, ih, List.mem_cons]
          constructor
          · rintro (⟨hrel, hconds⟩ | (⟨n, hn, hrest⟩ | ⟨n, c, hn, hrest⟩))
            · exact Or.inl ⟨name, Or.inl rfl, hrel, hconds⟩
            · exact Or.inl ⟨n, Or.inr hn, hrest⟩
            · exact Or.inr ⟨n, c, Or.inr hn, hrest⟩
          · rintro (⟨n, hn | hn, hrest⟩ | ⟨n, c, hn | hn, hrest⟩)
            · obtain ⟨rfl⟩ : n = name := by injection hn
              exact Or.inl ⟨hrest.1, hrest.2⟩
            · exact Or.inr (Or.inl ⟨n, hn, hrest⟩)
            · exact absurd hn (by intro hc; injection hc)
            · exact Or.inr (Or.inr ⟨n, c, hn, hrest⟩)
      | dir name children =>
          simp only [collect2, List.mem_append, ih, List.mem_cons]
          constructor
          · rintro (hhead | (⟨n, hn, hrest⟩ | ⟨n, c, hn, hrest⟩))
            · by_cases h1 : matchesAny (joinRel pfix name) gi
              · rw [if_pos h1] at hhead
                simp at hhead
              · rw [if_neg h1] at hhead
                exact Or.inr ⟨name, children, Or.inl rfl, by simpa using h1, hhead⟩
            · exact Or.inl ⟨n, Or.inr hn, hrest⟩
            · exact Or.inr ⟨n, c, Or.inr hn, hrest⟩
          · rintro (⟨n, hn | hn, hrest⟩ | ⟨n, c, hn | hn, hrest⟩)
            · exact absurd hn (by intro hc; injection hc)
            · exact Or.inr (Or.inl ⟨n, hn, hrest⟩)
            · obtain ⟨rfl, rfl⟩ : n = name ∧ c = children := by
                constructor <;> injection hn
              refine Or.inl ?_
              rw [if_neg (by simp [hrest.1])]
              exact hrest.2
            · exact Or.inr (Or.inr ⟨n, c, hn, hrest⟩)

/-- Exactly the `?` characters of a glob compile to the `qmark` wildcard:
`qmark` appears in the compiled pattern iff the glob contains `?`. -/
lemma qmark_mem_compileGlobAux : ∀ cs : List Char,
    GElem.qmark ∈ compileGlobAux cs ↔ '?' ∈ cs := by
  intro cs
  induction cs using compileGlobAux.induct with
  | case1 => simp [compileGlobAux]
  | case2 rest ih => simp [compileGlobAux, ih]
  | case3 rest h ih => simp [compileGlobAux, ih]
  | case4 rest ih => simp [compileGlobAux, ih]
  | case5 c rest h1 h2 h3 ih =>
      simp [compileGlobAux, ih]
      intro he
      exact (h3 he.symm).elim

/-! ### Claim theorems -/

/-- C1 (counterexample): with `maxChunkSize = 10` and `maxFileSize = 100`
the packing loop produces a chunk whose content length (19) exceeds
`maxChunkSize`: the skip policy only compares entries against `maxFileSize`,
so an entry longer than the chunk limit but within the file limit is placed
whole into a chunk that exceeds the limit.  This refutes the claim as stated
for arbitrary limit pairs. -/
theorem packer_chunk_limit_counterexample :
    ¬ ∀ ch ∈ (packLoop [("a", "x")] 10 100).1, ch.content.length ≤ 10 := by decide

/-- C1 (amended): whenever `maxFileSize ≤ maxChunkSize` (as with the shipped
defaults `25000*4 ≤ 50000*4`), every chunk the sequential packing loop
produces has content length at most `maxChunkSize`; oversized files are
skipped whole, never split. -/
theorem packer_chunk_limit_amended (files : List (String × String)) (mc mf : Nat)
    (hmf : mf ≤ mc) :
    ∀ ch ∈ (packLoop files mc mf).1, ch.content.length ≤ mc :=
  packGo_content_le mc mf hmf files { content := "", files := [] } (by simp)

/-- Witness for C1 (amended) at a concrete input. -/
theorem packer_chunk_limit_amended_witness :
    (Chunk.mk (fileEntry "a" "x") ["a"]).content.length ≤ 100 :=
  packer_chunk_limit_amended [("a", "x")] 100 50 (by decide)
    { content := fileEntry "a" "x", files := ["a"] } (by decide)

/-- C2 (counterexample): in the scored command's collector the whitelist
check applies to directories as well, so with whitelist `docs/x.js` the
directory `docs` (which matches no whitelist pattern) is pruned and the
whitelisted file `docs/x.js` is never collected, although it passes all four
file-level conditions (a)–(d).  This refutes both the stated inclusion `iff`
and the claim that the whitelist never causes a directory to be pruned. -/
theorem collector_whitelist_prune_counterexample :
    collect1 [] (patternsToRegex ["docs/x.js"]) [] [".js"]
        [FsEntry.dir "docs" [FsEntry.file "x.js"]] "" = []
    ∧ matchesAny "docs" (patternsToRegex ["docs/x.js"]) = false
    ∧ matchesAny "docs/x.js" [] = false
    ∧ matchesAny "docs/x.js" (patternsToRegex ["docs/x.js"]) = true
    ∧ matchesAny "docs/x.js" ([] : List (List GElem)) = false
    ∧ [".js"].contains (extname "x.js") = true := by
  refine ⟨?_, by decide, by decide, by decide, by decide, by decide⟩
  simp [collect1, joinRel, matchesAny, test, regexTest, regexTestFuel, toRegex,
    patternsToRegex, compileGlobAux]

/-- C2 (amended): for the sequential command's collector the claim holds in
the following form: a path is collected iff it is a file passing (a) no
global-ignore match, (b) empty whitelist or a whitelist match, (c) no
blacklist match, (d) extension in the include set, inside a chain of
directories none of which matches a global-ignore pattern — directories are
pruned only on global-ignore matches, and in particular the whitelist never
prunes a directory there, as the concrete scenario shows.  (In the scored
command's collector, global, blacklist and whitelist checks all prune
directories, per the counterexample.) -/
theorem collector_membership_amended :
    (∀ (gi wl bl : List (List GElem)) (exts : List String)
        (entries : List FsEntry) (pfix rel : String),
      rel ∈ collect2 gi wl bl exts entries pfix ↔
        (∃ name, FsEntry.file name ∈ entries ∧ rel = joinRel pfix name ∧
          matchesAny (joinRel pfix name) gi = false ∧
          (wl = [] ∨ matchesAny (joinRel pfix name) wl = true) ∧
          matchesAny (joinRel pfix name) bl = false ∧
          exts.contains (extname name) = true) ∨
        (∃ name children, FsEntry.dir name children ∈ entries ∧
          matchesAny (joinRel pfix name) gi = false ∧
          rel ∈ collect2 gi wl bl exts children (joinRel pfix name)))
    ∧ collect2 [] (patternsToRegex ["docs/x.js"]) [] [".js"]
        [FsEntry.dir "docs" [FsEntry.file "x.js"]] "" = ["docs/x.js"] :=
  ⟨collect2_mem_iff, by
    simp [collect2, joinRel, matchesAny, test, regexTest, regexTestFuel, toRegex,
      patternsToRegex, compileGlobAux, extname, lastDot]⟩

/-- C3: in both collectors a path matching any global-ignore pattern is never
collected, regardless of the whitelist's content — the global check comes
first and no whitelist pattern can override it. -/
theorem global_ignore_excludes_unconditionally
    (gi wl bl : List (List GElem)) (exts : List String)
    (entries : List FsEntry) (pfix rel : String)
    (h : matchesAny rel gi = true) :
    rel ∉ collect1 gi wl bl exts entries pfix
    ∧ rel ∉ collect2 gi wl bl exts entries pfix := by
  refine ⟨fun hm => ?_, fun hm => ?_⟩
  · have hf := collect1_mem_global gi wl bl exts entries pfix rel hm
    rw [h] at hf
    exact absurd hf (by simp)
  · have hf := collect2_mem_global gi wl bl exts entries pfix rel hm
    rw [h] at hf
    exact absurd hf (by simp)

/-- Witness for C3 at a concrete input. -/
theorem global_ignore_excludes_witness :
    "x.js" ∉ collect1 (patternsToRegex ["*.js"]) [] [] [".js"] [FsEntry.file "x.js"] ""
    ∧ "x.js" ∉ collect2 (patternsToRegex ["*.js"]) [] [] [".js"] [FsEntry.file "x.js"] "" :=
  global_ignore_excludes_unconditionally (patternsToRegex ["*.js"]) [] [] [".js"]
    [FsEntry.file "x.js"] "" "x.js" (by decide)

/-- C4 (counterexample): on the empty file list the estimator returns 1
chunk (`numChunks` starts at 1) while the packing loop produces 0 chunks, so
the estimate is not exact for every same-ordered list. -/
theorem estimate_empty_counterexample :
    (estimateOutputFiles (([] : List (String × String)).map
        fun f => (fileEntry f.1 f.2).length) 100).1
      ≠ (packLoop [] 100 100).1.length := by decide

/-- C4 (amended): for every non-empty file list none of whose entries is
skipped for exceeding `maxFileSize`, the greedy simulation of
`estimateOutputFiles`, run on the entry lengths in the same order, returns
exactly the number of chunks the sequential packing loop produces. -/
theorem estimate_exact_amended (files : List (String × String)) (mc mf : Nat)
    (hne : files ≠ [])
    (hfit : ∀ f ∈ files, (fileEntry f.1 f.2).length ≤ mf) :
    (estimateOutputFiles (files.map fun f => (fileEntry f.1 f.2).length) mc).1
      = (packLoop files mc mf).1.length := by
  have h := estimateGo_packGo mc mf files { content := "", files := [] } 0 0 hfit
    (fun hemp => absurd hemp hne)
  simpa [estimateOutputFiles, packLoop] using h

/-- Witness for C4 (amended) at a concrete input. -/
theorem estimate_exact_amended_witness :
    (estimateOutputFiles ([("a", "x")].map fun f => (fileEntry f.1 f.2).length) 100).1
      = (packLoop [("a", "x")] 100 100).1.length :=
  estimate_exact_amended [("a", "x")] 100 100 (by decide) (by decide)

/-- C5: concatenating the per-chunk manifests of the sequential packing loop
in output order reproduces exactly, and in order, the input files whose
entries fit the per-file limit; and the skip log contains exactly the
oversized files, in order.  Hence no file is duplicated across chunks and
none is dropped except the logged size skips. -/
theorem packer_manifest_roundtrip (files : List (String × String)) (mc mf : Nat) :
    ((packLoop files mc mf).1.map Chunk.files).flatten
        = (files.filter fun f => (fileEntry f.1 f.2).length ≤ mf).map Prod.fst
    ∧ (packLoop files mc mf).2
        = (files.filter fun f => mf < (fileEntry f.1 f.2).length).map Prod.fst := by
  have h := packGo_manifest mc mf files { content := "", files := [] } (fun _ => rfl)
  simpa [packLoop] using h

/-- C6 (counterexample): the parser switches sections on any line whose
lowercased form merely *begins* with a section keyword: in the document
`"global:\nfoo\nglobal: bar"` the line `global: bar` carries trailing text,
yet it switches the section (discarding the rest of the line) instead of
being appended, so the global list is `["foo"]` rather than containing a
second pattern. -/
theorem section_switch_counterexample :
    (parseFlattenIgnore (some "global:\nfoo\nglobal: bar") (fun _ => false)).global
      = ["foo"] := by decide

/-- C6 (amended): a non-comment, non-blank line whose lowercased form begins
with `global:`, `whitelist:`, `blacklist:` or `settings:` (checked in that
order) switches the active section and contributes nothing else — any
trailing text on it is discarded; every other non-comment, non-blank line is
appended verbatim to the active section's pattern list; and in the settings
section every line containing `:` is stored as a key/value pair whose value
is coerced to a number exactly when it satisfies JS `Number`'s
string-numeric grammar (empty string; signed decimal with optional fraction
and exponent; signed `Infinity`; unsigned binary/octal/hex literal), else
kept as a string — illustrated on `128000`, `1.5`, `1e3`, `0x10`,
`Infinity`, `true` and the empty string. -/
theorem section_switch_amended :
    (∀ (st : ParseState) (line : String),
        jsStartsWith line "#" = false → (line == "") = false →
        jsStartsWith (jsToLower line) "global:" = true →
        parseLine st line = { st with sect := some Sect.global })
    ∧ (∀ (st : ParseState) (line : String),
        jsStartsWith line "#" = false → (line == "") = false →
        jsStartsWith (jsToLower line) "global:" = false →
        jsStartsWith (jsToLower line) "whitelist:" = true →
        parseLine st line = { st with sect := some Sect.whitelist })
    ∧ (∀ (st : ParseState) (line : String),
        jsStartsWith line "#" = false → (line == "") = false →
        jsStartsWith (jsToLower line) "global:" = false →
        jsStartsWith (jsToLower line) "whitelist:" = false →
        jsStartsWith (jsToLower line) "blacklist:" = true →
        parseLine st line = { st with sect := some Sect.blacklist })
    ∧ (∀ (st : ParseState) (line : String),
        jsStartsWith line "#" = false → (line == "") = false →
        jsStartsWith (jsToLower line) "global:" = false →
        jsStartsWith (jsToLower line) "whitelist:" = false →
        jsStartsWith (jsToLower line) "blacklist:" = false →
        jsStartsWith (jsToLower line) "settings:" = true →
        parseLine st line = { st with sect := some Sect.settings })
    ∧ (∀ (st : ParseState) (line : String),
        jsStartsWith line "#" = false → (line == "") = false →
        jsStartsWith (jsToLower line) "global:" = false →
        jsStartsWith (jsToLower line) "whitelist:" = false →
        jsStartsWith (jsToLower line) "blacklist:" = false →
        jsStartsWith (jsToLower line) "settings:" = false →
        st.sect = some Sect.global →
        parseLine st line = { st with globalArr := st.globalArr ++ [line] })
    ∧ (∀ (st : ParseState) (line : String),
        jsStartsWith line "#" = false → (line == "") = false →
        jsStartsWith (jsToLower line) "global:" = false →
        jsStartsWith (jsToLower line) "whitelist:" = false →
        jsStartsWith (jsToLower line) "blacklist:" = false →
        jsStartsWith (jsToLower line) "settings:" = false →
        st.sect = some Sect.whitelist →
        parseLine st line = { st with whitelistArr := st.whitelistArr ++ [line] })
    ∧ (∀ (st : ParseState) (line : String),
        jsStartsWith line "#" = false → (line == "") = false →
        jsStartsWith (jsToLower line) "global:" = false →
        jsStartsWith (jsToLower line) "whitelist:" = false →
        jsStartsWith (jsToLower line) "blacklist:" = false →
        jsStartsWith (jsToLower line) "settings:" = false →
        st.sect = some Sect.blacklist →
        parseLine st line = { st with blacklistArr := st.blacklistArr ++ [line] })
    ∧ (∀ (st : ParseState) (line : String),
        jsStartsWith line "#" = false → (line == "") = false →
        jsStartsWith (jsToLower line) "global:" = false →
        jsStartsWith (jsToLower line) "whitelist:" = false →
        jsStartsWith (jsToLower line) "blacklist:" = false →
        jsStartsWith (jsToLower line) "settings:" = false →
        st.sect = some Sect.settings →
        2 ≤ (jsSplitChar ':' line).length →
        parseLine st line = { st with settingsObj := st.settingsObj ++
          [(jsTrim ((jsSplitChar ':' line).headD ""),
            settingValOf (jsTrim (String.intercalate ":" (jsSplitChar ':' line).tail)))] })
    ∧ (∀ v : String, (∃ n, settingValOf v = SettingVal.num n) ↔ jsNumber v ≠ none)
    ∧ parseLine { sect := some Sect.settings, globalArr := [], whitelistArr := [], blacklistArr := [], settingsObj := [] } "useGitIgnore: true"
        = { sect := some Sect.settings, globalArr := [], whitelistArr := [], blacklistArr := [], settingsObj := [("useGitIgnore", SettingVal.str "true")] }
    ∧ jsNumber "128000" = some (JsNum.finite 128000)
    ∧ jsNumber "1.5" = some (JsNum.finite (3 / 2))
    ∧ jsNumber "1e3" = some (JsNum.finite 1000)
    ∧ jsNumber "0x10" = some (JsNum.finite 16)
    ∧ jsNumber "Infinity" = some JsNum.posInf
    ∧ jsNumber "true" = none
    ∧ jsNumber "" = some (JsNum.finite 0) := by
  refine ⟨?_, ?_, ?_, ?_, ?_, ?_, ?_, ?_, ?_, by decide, ?_, ?_, ?_, ?_,
    by decide, by decide, by decide⟩
  · intro st line h0 h0' h1
    simp [parseLine, h0, h0', h1]
  · intro st line h0 h0' h1 h2
    simp [parseLine, h0, h0', h1, h2]
  · intro st line h0 h0' h1 h2 h3
    simp [parseLine, h0, h0', h1, h2, h3]
  · intro st line h0 h0' h1 h2 h3 h4
    simp [parseLine, h0, h0', h1, h2, h3, h4]
  · intro st line h0 h0' h1 h2 h3 h4 hsect
    simp [parseLine, h0, h0', h1, h2, h3, h4, hsect]
  · intro st line h0 h0' h1 h2 h3 h4 hsect
    simp [parseLine, h0, h0', h1, h2, h3, h4, hsect]
  · intro st line h0 h0' h1 h2 h3 h4 hsect
    simp [parseLine, h0, h0', h1, h2, h3, h4, hsect]
  · intro st line h0 h0' h1 h2 h3 h4 hsect hlen
    simp [parseLine, h0, h0', h1, h2, h3, h4, hsect, hlen]
  · intro v
    cases hj : jsNumber v <;> simp [settingValOf, hj]
  · show some (JsNum.finite (((128000 : Nat) : Rat) / ((1 : Nat) : Rat)))
        = some (JsNum.finite 128000)
    norm_num
  · show some (JsNum.finite (((15 : Nat) : Rat) / ((10 : Nat) : Rat)))
        = some (JsNum.finite (3 / 2))
    norm_num
  · show some (JsNum.finite ((((1 : Nat) : Rat) / ((1 : Nat) : Rat)) * ((1000 : Nat) : Rat)))
        = some (JsNum.finite 1000)
    norm_num
  · show some (JsNum.finite ((16 : Nat) : Rat)) = some (JsNum.finite 16)
    norm_num

/-- Witness for C6 (amended) at concrete inputs. -/
theorem section_switch_amended_witness :
    parseLine { sect := none, globalArr := [], whitelistArr := [], blacklistArr := [], settingsObj := [] } "GLOBAL: header"
      = { sect := some Sect.global, globalArr := [], whitelistArr := [], blacklistArr := [], settingsObj := [] }
    ∧ parseLine { sect := some Sect.global, globalArr := [], whitelistArr := [], blacklistArr := [], settingsObj := [] } "node_modules"
      = { sect := some Sect.global, globalArr := ["node_modules"], whitelistArr := [], blacklistArr := [], settingsObj := [] } :=
  ⟨section_switch_amended.1 _ "GLOBAL: header" (by decide) (by decide) (by decide),
   section_switch_amended.2.2.2.2.1 _ "node_modules" (by decide) (by decide)
     (by decide) (by decide) (by decide) (by decide) rfl⟩

/-- C7 (counterexample): the compiled matcher for `a?b` accepts `a/b` —
`?` is compiled to `.`, which matches the path separator as well, refuting
the claim that `?` matches only non-separator characters. -/
theorem qmark_matches_separator_counterexample :
    test (toRegex "a?b") "a/b" = true := by decide

/-- C7 (amended): in every glob pattern, each `?` — and nothing else —
compiles to the `qmark` wildcard, and that wildcard consumes exactly one
character, which may be any character except a line terminator (JavaScript
`.` without the `s` flag) — the path separator `/` included.  In
particular `a?b` accepts `a/b`, rejects the line-terminator case, and
rejects strings where `?` would have to span zero or two characters. -/
theorem qmark_any_char_amended :
    (∀ glob : String, GElem.qmark ∈ toRegex glob ↔ '?' ∈ glob.data)
    ∧ (∀ (fuel : Nat) (gs : List GElem) (d : Char) (ds : List Char),
        regexTestFuel (fuel + 1) (.qmark :: gs) (d :: ds)
          = (!isLineTerminator d && regexTestFuel fuel gs ds))
    ∧ (∀ (fuel : Nat) (gs : List GElem), regexTestFuel (fuel + 1) (.qmark :: gs) [] = false)
    ∧ test (toRegex "a?b") "a/b" = true
    ∧ test (toRegex "a?b") "a\nb" = false
    ∧ test (toRegex "a?b") "ab" = false
    ∧ test (toRegex "a?b") "aXYb" = false :=
  ⟨fun glob => qmark_mem_compileGlobAux glob.data,
   fun _ _ _ _ => rfl, fun _ _ => rfl,
   by decide, by decide, by decide, by decide⟩

/-- C8: the rule-set parser fails soft — a missing or unreadable rule
document (the `none` content case, i.e. the catch branch) yields the rule
set with empty global, whitelist and blacklist lists and an empty settings
map, and the subsequent defaults merge supplies the built-in
`maxTokenLimit = 50000` and `maxTokensPerFile = 25000`. -/
theorem parse_fails_soft :
    ∀ isDir : String → Bool,
      parseFlattenIgnore none isDir
          = { global := [], whitelist := [], blacklist := [], settings := [] }
      ∧ effectiveMaxTokenLimit (parseFlattenIgnore none isDir) = SettingVal.num (JsNum.finite 50000)
      ∧ effectiveMaxTokensPerFile (parseFlattenIgnore none isDir) = SettingVal.num (JsNum.finite 25000) :=
  fun _ => ⟨rfl, rfl, rfl⟩

/-- C9: `createChunksEfficiently` always returns exactly one chunk, the
result is completely independent of the `maxChunkSize` argument, and the
chunk's manifest is exactly the greedy inclusion under the fixed
`HARD_LIMIT = 524288` character budget: a file is included only if its
entry still fits the hard limit at the moment it is processed. -/
theorem createChunksEfficiently_single_chunk :
    ∀ (files : List (String × String)) (m m' : Nat),
      createChunksEfficiently files m = createChunksEfficiently files m'
      ∧ (createChunksEfficiently files m).length = 1
      ∧ ∃ ch, createChunksEfficiently files m = [ch]
          ∧ ch.files = greedyIncluded files 0 := by
  intro files m m'
  refine ⟨rfl, rfl, ?_⟩
  refine ⟨_, rfl, ?_⟩
  show (cceGo files "" [] []).2.1 = greedyIncluded files 0
  have h := cceGo_included files "" [] []
  rw [show ("" : String).length = 0 from rfl] at h
  simpa using h

/-- C10 (counterexample): with `maxChunkSize = 5` and `maxFileSize = 50` the
packing loop pushes the still-empty initial chunk when the first entry
overflows the chunk limit, emitting a chunk with empty content and empty
manifest — refuting the claim for arbitrary limit combinations. -/
theorem packer_empty_chunk_counterexample :
    ¬ ∀ ch ∈ (packLoop [("b", "yz")] 5 50).1, ch.files ≠ [] ∧ ch.content ≠ "" := by
  decide

/-- C10 (amended): whenever `maxFileSize ≤ maxChunkSize` (as with the
shipped defaults), every chunk emitted by the sequential packing loop has a
non-empty manifest and non-empty content. -/
theorem packer_nonempty_chunks_amended (files : List (String × String)) (mc mf : Nat)
    (hmf : mf ≤ mc) :
    ∀ ch ∈ (packLoop files mc mf).1, ch.files ≠ [] ∧ ch.content ≠ "" :=
  packGo_nonempty mc mf hmf files { content := "", files := [] } (by simp)

/-- Witness for C10 (amended) at a concrete input. -/
theorem packer_nonempty_chunks_amended_witness :
    (Chunk.mk (fileEntry "w" "q") ["w"]).files ≠ []
    ∧ (Chunk.mk (fileEntry "w" "q") ["w"]).content ≠ "" :=
  packer_nonempty_chunks_amended [("w", "q")] 100 50 (by decide)
    { content := fileEntry "w" "q", files := ["w"] } (by decide)

end FlattenRepo
